import Mathlib

/-!
Verification development for the entity-pdf-viewer repository.

The source (`src/EntityViewer.tsx`, `src/db.ts`) is shallowly embedded here:
- Text is a list of Unicode code points (`List Nat`).
- The Matcher: `createExactMatchRegex(entity, global)` builds the pattern
  `\b? <escaped entity> \b?` with flags `gi` (or `i`).  Because every
  pattern-special character of the entity is escaped (`escapeRegExp`), the
  pattern denotes: the entity matched literally and case-insensitively,
  with a word-boundary assertion at the start when the entity's first
  character is a word character (tested by `/^\w/`) and at the end when its
  last character is one (tested by `/\w$/`).  We embed that denotation
  directly: `matchesAt` is the semantics of the constructed pattern at one
  position, `findFrom` is one `exec` call (leftmost match at or after
  `lastIndex`), and `findAllAux` is the `while ((match = regex.exec(s)))`
  loop, fuelled because the source loop itself would not terminate on a
  zero-length entity.
- Case canonicalisation: without the `u` flag, JavaScript canonicalises via
  `toUpperCase` and never maps a non-ASCII character to an ASCII one, so on
  the ASCII range it is exactly ASCII uppercasing; `canon` models that.
- `\w` and `\b` are ASCII: `[A-Za-z0-9_]`.
- The store (`LocalDB` / IndexedDB) is a list of (auto-incremented id,
  record) pairs; a transaction outcome is an explicit input, and a
  rejection is an `Except.error` (`request.onerror = () => reject(...)`).
- The scan loop (`processDirectory`) is a fold over the document list; the
  cancellation flag (`abortControllerRef`) is an oracle giving the flag
  value read at the top of the loop for each document index; the per
  document `try/catch` is the `Except` handler in `processDoc`; the
  `console.error` observability channel is the `errors` list.
- The render path (`loadAndRenderMatch`) is a function from the permission
  query/request results and the load outcome to (rendered?, message?).
-/

namespace EV

/-- `\w` of the pattern language: ASCII letter, digit or underscore. -/
def isWordChar (c : Nat) : Bool :=
  decide ((65 ≤ c ∧ c ≤ 90) ∨ (97 ≤ c ∧ c ≤ 122) ∨ (48 ≤ c ∧ c ≤ 57) ∨ c = 95)

/-- Case canonicalisation of the `i` flag (no `u` flag): ASCII lowercase
letters are uppercased, everything else is untouched (a non-ASCII character
never canonicalises onto ASCII). -/
def canon (c : Nat) : Nat := if 97 ≤ c ∧ c ≤ 122 then c - 32 else c

/-- `/^\w/.test(entity)` of `createExactMatchRegex`. -/
def startsWithWord : List Nat → Bool
  | [] => false
  | c :: _ => isWordChar c

/-- `/\w$/.test(entity)` of `createExactMatchRegex`. -/
def endsWithWord (E : List Nat) : Bool :=
  match E.getLast? with
  | some c => isWordChar c
  | none => false

/-- Whether the character at index `i` of `T` exists and is a word
character (positions outside the string count as non-word). -/
def isWordAt (T : List Nat) (i : Nat) : Bool :=
  match T[i]? with
  | some c => isWordChar c
  | none => false

/-- The `\b` assertion of the pattern language at position `i` of `T`. -/
def boundaryAt (T : List Nat) (i : Nat) : Bool :=
  ((if i = 0 then false else isWordAt T (i - 1)) != isWordAt T i)

/-- The literal, case-insensitive part of the pattern: the escaped entity
matches the window of `T` starting at `i`. -/
def matchChars (E T : List Nat) (i : Nat) : Bool :=
  decide (i + E.length ≤ T.length) &&
  decide (((T.drop i).take E.length).map canon = E.map canon)

/-- Semantics of the pattern built by `createExactMatchRegex(entity)` at a
single position: literal case-insensitive match plus the conditionally
prepended/appended word-boundary assertions. -/
def matchesAt (E T : List Nat) (i : Nat) : Bool :=
  matchChars E T i &&
  (!startsWithWord E || boundaryAt T i) &&
  (!endsWithWord E || boundaryAt T (i + E.length))

/-- One `regex.exec(fullPageString)` call of the global pattern: the
leftmost match position at or after `lastIndex` (`none` models the `null`
return). -/
def findFrom (E T : List Nat) (start : Nat) : Option Nat :=
  (List.range (T.length + 1)).find? (fun i => decide (start ≤ i) && matchesAt E T i)

/-- The `while ((match = regex.exec(fullPageString)) !== null)` loop of
`processDirectory`, collecting `(match.index, match length)` pairs and
advancing `lastIndex` past each match.  Fuelled, because the source loop
itself diverges on a zero-length entity. -/
def findAllAux (E T : List Nat) : Nat → Nat → List (Nat × Nat)
  | _, 0 => []
  | cursor, fuel + 1 =>
    match findFrom E T cursor with
    | none => []
    | some i => (i, E.length) :: findAllAux E T (i + E.length) fuel

/-- All occurrences extracted by the global pattern over `T`
(`T.length + 1` fuel is enough for a non-empty entity, see
`C10_extraction_loop_terminates`). -/
def findAll (E T : List Nat) : List (Nat × Nat) :=
  findAllAux E T 0 (T.length + 1)

/-- `Math.max(0, match.index - 30)` of the snippet computation (truncated
natural subtraction is exactly the clamped form). -/
def snipStart (idx : Nat) : Nat := idx - 30

/-- `Math.min(fullPageString.length, match.index + entity.length + 30)`. -/
def snipEnd (T : List Nat) (idx entLen : Nat) : Nat :=
  min T.length (idx + entLen + 30)

/-- The literal `"..."` frame of a snippet (three full stops). -/
def ellipsis : List Nat := [46, 46, 46]

/-- `"..." + fullPageString.substring(start, end) + "..."` of
`processDirectory` (`substring(s, e)` is the character range `[s, e)`). -/
def snippet (T : List Nat) (idx entLen : Nat) : List Nat :=
  ellipsis ++ ((T.drop (snipStart idx)).take (snipEnd T idx entLen - snipStart idx)) ++
    ellipsis

/-- A Match Record as written by `db.addMatch` in `processDirectory`.
`fileHandle` is the opaque capability reference (modelled by an id), and
`timestamp` is the `Date.now()` value at creation. -/
structure MatchRecord where
  entity : List Nat
  fileName : String
  pageNumber : Nat
  textSnippet : List Nat
  fileHandle : Nat
  timestamp : Nat
deriving DecidableEq

/-- The IndexedDB object store `matches`: an auto-increment key generator
plus the list of (id, record) pairs in insertion order. -/
structure Store where
  nextId : Nat
  records : List (Nat × MatchRecord)
deriving DecidableEq

/-- A freshly created store (IndexedDB key generators start at 1). -/
def Store.empty : Store := ⟨1, []⟩

/-- `LocalDB.addMatch`: one readwrite transaction adding one record.  The
transaction outcome is an explicit input (`some e` models a rejecting
transaction whose `request.error` is `e`); `request.onerror` rejects the
promise with that error, `request.onsuccess` resolves after the insert. -/
def dbAdd (outcome : Option String) (s : Store) (m : MatchRecord) :
    Except String Store :=
  match outcome with
  | some e => Except.error e
  | none => Except.ok ⟨s.nextId + 1, s.records ++ [(s.nextId, m)]⟩

/-- `LocalDB.clear` / `clearMatches`: removes every record (the key
generator of an IndexedDB store is not reset by `clear`). -/
def Store.clear (s : Store) : Store := ⟨s.nextId, []⟩

/-- Association-list lookup over the prototype-free idealization of the
grouped-count object: own properties only, no `Object.prototype` chain
(the engine-faithful read is `jsGet`). -/
def lookupKey (e : List Nat) : List (List Nat × Nat) → Option Nat
  | [] => none
  | p :: r => if p.1 = e then some p.2 else lookupKey e r

/-- One step of the tally loop `counts[m.entity] = (counts[m.entity] || 0) + 1`
in the prototype-free idealization: own keys only, numeric values,
key-insertion order.  This matches the program only for keys that do not
collide with an `Object.prototype` member; the engine-faithful step is
`bumpJS`. -/
def bump (acc : List (List Nat × Nat)) (e : List Nat) : List (List Nat × Nat) :=
  match lookupKey e acc with
  | some _ => acc.map (fun p => if p.1 = e then (p.1, p.2 + 1) else p)
  | none => acc ++ [(e, 1)]

/-- `LocalDB.getMatchesGrouped` (and `getAllEntitiesGrouped` of `db.ts`)
under the prototype-free idealization of the `{}` tally object (exact
e.g. for the empty store, where no read or write ever happens); the
engine-faithful version is `getMatchesGroupedJS`. -/
def getMatchesGrouped (s : Store) : List (List Nat × Nat) :=
  s.records.foldl (fun acc r => bump acc r.2.entity) []

/-- `LocalDB.getMatchesForEntity`: all records of the `entity` secondary
index under one key. -/
def getMatchesForEntity (s : Store) (e : List Nat) : List (Nat × MatchRecord) :=
  s.records.filter (fun r => r.2.entity == e)

/-- Multiplicity of `e` in a list of entity values. -/
def countList (e : List Nat) : List (List Nat) → Nat
  | [] => 0
  | a :: r => (if a = e then 1 else 0) + countList e r

/-- The multiset cardinality of `entity` values across all live records. -/
def countEntity (s : Store) (e : List Nat) : Nat :=
  countList e (s.records.map (fun r => r.2.entity))

/-- Code points of a string literal (used to write concrete keys). -/
def codes (s : String) : List Nat := s.toList.map (fun c => c.toNat)

/-- A JavaScript value as it can occur in the tally object of
`getMatchesGrouped`: a number, a string (the result of the `+ 1`
concatenation on a truthy non-number), or a value inherited from
`Object.prototype` — the object returned by the inherited `__proto__`
getter, or one of the built-in function members. -/
inductive JSVal where
  | num (n : Nat)
  | str (s : List Nat)
  | protoObject
  | protoMember (name : List Nat)
deriving DecidableEq

/-- The data-property member names of `Object.prototype`: inherited,
truthy function values; writable, so an assignment shadows them with an
own property on the receiver. -/
def protoDataKeys : List (List Nat) :=
  [codes "constructor", codes "hasOwnProperty", codes "isPrototypeOf",
   codes "propertyIsEnumerable", codes "toLocaleString", codes "toString",
   codes "valueOf", codes "__defineGetter__", codes "__defineSetter__",
   codes "__lookupGetter__", codes "__lookupSetter__"]

/-- The accessor member name of `Object.prototype`: a read returns the
object's prototype; a write invokes the inherited setter, which silently
ignores any primitive value. -/
def protoAccessor : List Nat := codes "__proto__"

/-- Own-property lookup on a JS object's entry list. -/
def jsLookup (k : List Nat) : List (List Nat × JSVal) → Option JSVal
  | [] => none
  | p :: r => if p.1 = k then some p.2 else jsLookup k r

/-- A plain `{}` object as the tally of `getMatchesGrouped` uses it: its
own enumerable entries in insertion order (these are what
`Object.keys` / `Object.entries` see).  Reads that miss the own entries
fall back to the `Object.prototype` chain, and writes to `"__proto__"`
are intercepted by the inherited accessor: `jsGet` / `jsSet`. -/
structure JSObject where
  own : List (List Nat × JSVal)
deriving DecidableEq

/-- Property read `o[k]`: the own property when present, else the
inherited `Object.prototype` member; `none` is `undefined`. -/
def jsGet (o : JSObject) (k : List Nat) : Option JSVal :=
  match jsLookup k o.own with
  | some v => some v
  | none =>
    if k = protoAccessor then some JSVal.protoObject
    else if k ∈ protoDataKeys then some (JSVal.protoMember k)
    else none

/-- Property write `o[k] = v` for a primitive `v` (the tally only ever
assigns numbers or concatenation-result strings, see `jsIncr`): an
existing own property is updated in place; absent one, an assignment to
`"__proto__"` invokes the inherited setter, which silently ignores a
primitive value and creates no own property; any other key becomes a new
own property (shadowing an inherited data member such as
`"constructor"` when one exists, which is permitted because those
members are writable). -/
def jsSet (o : JSObject) (k : List Nat) (v : JSVal) : JSObject :=
  match jsLookup k o.own with
  | some _ => ⟨o.own.map (fun p => if p.1 = k then (p.1, v) else p)⟩
  | none =>
    if k = protoAccessor then o
    else ⟨o.own ++ [(k, v)]⟩

/-- `String(v)` for the truthy non-number values that can reach the `+ 1`
concatenation.  The source text of a built-in function is
engine-defined (V8 prints, for the inherited `hasOwnProperty`, the text
`function hasOwnProperty() { [native code] }`); no theorem depends on
its content, only on the result being a string rather than a number, so
the member's own name stands in for it. -/
def jsToString : JSVal → List Nat
  | JSVal.num _ => []
  | JSVal.str s => s
  | JSVal.protoObject => codes "[object Object]"
  | JSVal.protoMember name => name

/-- `(o[k] || 0) + 1` evaluated on the read value.  `undefined`, `0` and
the empty string are falsy, so they yield the number `1`; a non-zero
number is incremented; a truthy non-number makes `+` concatenate
`String(v)` with the character `"1"` (code point 49), yielding a
string. -/
def jsIncr : Option JSVal → JSVal
  | none => JSVal.num 1
  | some (JSVal.num n) => JSVal.num (n + 1)
  | some (JSVal.str s) => if s = [] then JSVal.num 1 else JSVal.str (s ++ [49])
  | some JSVal.protoObject => JSVal.str (jsToString JSVal.protoObject ++ [49])
  | some (JSVal.protoMember name) =>
    JSVal.str (jsToString (JSVal.protoMember name) ++ [49])

/-- One tally step `counts[m.entity] = (counts[m.entity] || 0) + 1` with
the actual JavaScript plain-object semantics. -/
def bumpJS (o : JSObject) (k : List Nat) : JSObject :=
  jsSet o k (jsIncr (jsGet o k))

/-- `LocalDB.getMatchesGrouped` / `getAllEntitiesGrouped` with the actual
semantics of the plain `{}` object the code tallies into: reads see the
`Object.prototype` chain, writes to `"__proto__"` are dropped by the
inherited setter. -/
def getMatchesGroupedJS (s : Store) : JSObject :=
  s.records.foldl (fun o r => bumpJS o r.2.entity) ⟨[]⟩

/-- Whether an optional JS value is a number. -/
def isNumVal : Option JSVal → Bool
  | some (JSVal.num _) => true
  | _ => false

/-- Whether an optional JS value is a string. -/
def isStrVal : Option JSVal → Bool
  | some (JSVal.str _) => true
  | _ => false

/-- Outcome of handing one file's bytes to `pdfjs.getDocument`: either the
per-page extracted flat text strings, or a decode failure message. -/
inductive DocContent where
  | failed (msg : String)
  | pages (ps : List (List Nat))
deriving DecidableEq

/-- One PDF file yielded by the directory walk. -/
structure Doc where
  name : String
  handle : Nat
  content : DocContent
deriving DecidableEq

/-- The mutable state of `processDirectory`: the store, the
`fileCount`/`matchCount` counters backing the progress statistics, the
`console.error` log, and the number of insert transactions attempted so
far (used to index transaction outcomes). -/
structure ScanState where
  store : Store
  fileCount : Nat
  matchCount : Nat
  errors : List String
  tick : Nat
deriving DecidableEq

/-- The records emitted for one page: for every entity of the CSV list in
order, every occurrence found by the global pattern, with its snippet. -/
def pageRecords (entities : List (List Nat)) (name : String) (handle t pn : Nat)
    (text : List Nat) : List MatchRecord :=
  entities.flatMap (fun e => (findAll e text).map (fun m =>
    ⟨e, name, pn, snippet text m.1 e.length, handle, t⟩))

/-- The `await db.addMatch(...)` / `matchCount++` sequence for the records
of one page: each insert is its own transaction whose outcome is
`tx st.tick`; a rejection aborts the rest of the document (the exception
propagates to the per-document catch, carrying the state so far). -/
def insertRecords (tx : Nat → Option String) :
    ScanState → List MatchRecord → Except (ScanState × String) ScanState
  | st, [] => Except.ok st
  | st, m :: rest =>
    match dbAdd (tx st.tick) st.store m with
    | Except.error e => Except.error ({ st with tick := st.tick + 1 }, e)
    | Except.ok s2 =>
      insertRecords tx
        { st with store := s2, tick := st.tick + 1, matchCount := st.matchCount + 1 }
        rest

/-- The page loop of `processDirectory` (1-based ascending page numbers). -/
def processPages (entities : List (List Nat)) (tx : Nat → Option String)
    (name : String) (handle t : Nat) :
    ScanState → Nat → List (List Nat) → Except (ScanState × String) ScanState
  | st, _, [] => Except.ok st
  | st, pn, p :: rest =>
    match insertRecords tx st (pageRecords entities name handle t pn p) with
    | Except.error r => Except.error r
    | Except.ok st2 => processPages entities tx name handle t st2 (pn + 1) rest

/-- The `console.error` line of the per-document catch in
`processDirectory`. -/
def docError (name e : String) : String := "Fehler bei " ++ name ++ ": " ++ e

/-- One iteration body of the document loop of `processDirectory`:
`fileCount++`, then decode and scan the document inside the per-document
`try/catch` — a decode failure or a rejected insert is caught, logged, and
the loop moves on. -/
def processDoc (entities : List (List Nat)) (tx : Nat → Option String) (t : Nat)
    (st : ScanState) (d : Doc) : ScanState :=
  let st1 : ScanState := { st with fileCount := st.fileCount + 1 }
  match d.content with
  | DocContent.failed e => { st1 with errors := st1.errors ++ [docError d.name e] }
  | DocContent.pages ps =>
    match processPages entities tx d.name d.handle t st1 1 ps with
    | Except.ok st2 => st2
    | Except.error (st2, e) => { st2 with errors := st2.errors ++ [docError d.name e] }

/-- The document loop of `processDirectory`: before each document the
cancellation flag is read (`if (abortControllerRef.current) break`);
`cancel i` is the flag value observed before the document at global index
`i`.  Cancellation is checked only here, never inside a document. -/
def runScanAux (entities : List (List Nat)) (tx : Nat → Option String)
    (cancel : Nat → Bool) (t : Nat) :
    ScanState → Nat → List Doc → ScanState
  | st, _, [] => st
  | st, i, d :: rest =>
    if cancel i then st
    else runScanAux entities tx cancel t (processDoc entities tx t st d) (i + 1) rest

/-- A whole scan run over the walked document list, starting from a given
store. -/
def runScan (entities : List (List Nat)) (tx : Nat → Option String)
    (cancel : Nat → Bool) (t : Nat) (s0 : Store) (ds : List Doc) : ScanState :=
  runScanAux entities tx cancel t ⟨s0, 0, 0, [], 0⟩ 0 ds

/-- Result of `queryPermission` / `requestPermission` on a file handle. -/
inductive PermState where
  | granted
  | denied
  | prompt
deriving DecidableEq

/-- Outcome of the load/decode/render pipeline of `loadAndRenderMatch`
(`getFile`, `getDocument`, `getPage`, `render`): success, or a thrown
exception (e.g. the file was moved or deleted since indexing). -/
inductive LoadResult where
  | loaded
  | threw (msg : String)
deriving DecidableEq

/-- Environment of one `loadAndRenderMatch` call: the permission query
result, the permission re-request result (consulted only when the query is
not `granted`), and the outcome of the load/decode/render pipeline. -/
structure RenderEnv where
  queryPerm : PermState
  requestPerm : PermState
  loadResult : LoadResult
deriving DecidableEq

/-- Observable outcome of `loadAndRenderMatch`: whether the page was
rendered onto the canvas, and the message surfaced to the user (the
`alert`), if any. -/
structure RenderOutcome where
  rendered : Bool
  message : Option String
deriving DecidableEq

/-- The `alert` text of the catch handler in `loadAndRenderMatch`. -/
def alertMsg : String := "Datei konnte nicht geladen werden. Wurde sie verschoben?"

/-- `loadAndRenderMatch`: re-check the read permission (re-requesting it if
not granted); when both results are not `granted` the function returns
without rendering and without any message; otherwise the load pipeline
runs, an exception being caught and surfaced via `alert`. -/
def loadAndRenderMatch (env : RenderEnv) : RenderOutcome :=
  if env.queryPerm ≠ PermState.granted ∧ env.requestPerm ≠ PermState.granted then
    ⟨false, none⟩
  else
    match env.loadResult with
    | LoadResult.loaded => ⟨true, none⟩
    | LoadResult.threw _ => ⟨false, some alertMsg⟩

/-- Number of documents the loop of `runScanAux` processes before it stops
(the first index at which the cancellation flag reads true, or the end of
the list). -/
def stopIndex (cancel : Nat → Bool) : Nat → List Doc → Nat
  | _, [] => 0
  | i, _ :: rest => if cancel i then 0 else stopIndex cancel (i + 1) rest + 1

/-- Concrete data used by witnesses: the entity `"Cat"`. -/
def catE : List Nat := [67, 97, 116]

/-- Concrete data used by witnesses: the text `"The Catalog cat sat"`. -/
def catT : List Nat :=
  [84, 104, 101, 32, 67, 97, 116, 97, 108, 111, 103, 32, 99, 97, 116, 32, 115, 97, 116]

/-- Concrete data used by witnesses: an initial scan state over an empty
store. -/
def st0 : ScanState := ⟨Store.empty, 0, 0, [], 0⟩

/-- Concrete data used by witnesses: a one-page document whose page text is
`"a"`. -/
def d0 : Doc := ⟨"a.pdf", 0, DocContent.pages [[97]]⟩

/-- Concrete data used by witnesses: a document that fails to decode. -/
def dBad : Doc := ⟨"bad.pdf", 1, DocContent.failed "broken"⟩

/-- Concrete data used by witnesses: a render environment in which both the
permission query and the re-request come back denied. -/
def deniedEnv : RenderEnv := ⟨PermState.denied, PermState.denied, LoadResult.loaded⟩

/-- Concrete failing input: a record whose entity is `"__proto__"`. -/
def protoRec : MatchRecord := ⟨codes "__proto__", "a.pdf", 1, [], 0, 0⟩

/-- A store holding two records for the entity `"__proto__"`. -/
def sProto : Store := ⟨3, [(1, protoRec), (2, protoRec)]⟩

/-- Concrete failing input: a record whose entity is `"constructor"`. -/
def ctorRec : MatchRecord := ⟨codes "constructor", "a.pdf", 1, [], 0, 0⟩

/-- A store holding two records for the entity `"constructor"`. -/
def sCtor : Store := ⟨3, [(1, ctorRec), (2, ctorRec)]⟩

end EV

namespace EV

theorem findFrom_some {E T : List Nat} {s i : Nat} (h : findFrom E T s = some i) :
    s ≤ i ∧ matchesAt E T i = true := by
  have hp := List.find?_some h
  simp only [Bool.and_eq_true, decide_eq_true_eq] at hp
  exact hp

theorem matchesAt_bound {E T : List Nat} {i : Nat} (h : matchesAt E T i = true) :
    i + E.length ≤ T.length := by
  unfold matchesAt matchChars at h
  simp only [Bool.and_eq_true, decide_eq_true_eq] at h
  exact h.1.1.1

theorem matchesAt_window_eq {E T : List Nat} {i : Nat} (h : matchesAt E T i = true) :
    ((T.drop i).take E.length).map canon = E.map canon := by
  unfold matchesAt matchChars at h
  simp only [Bool.and_eq_true, decide_eq_true_eq] at h
  exact h.1.1.2

theorem findFrom_none {E T : List Nat} {s : Nat} (h : T.length < s) :
    findFrom E T s = none := by
  apply List.find?_eq_none.mpr
  intro i hi
  simp only [List.mem_range] at hi
  simp only [Bool.and_eq_true, decide_eq_true_eq, not_and]
  intro hsi
  omega

theorem findAllAux_mem {E T : List Nat} :
    ∀ {fuel cursor : Nat} {m : Nat × Nat}, m ∈ findAllAux E T cursor fuel →
      cursor ≤ m.1 ∧ matchesAt E T m.1 = true ∧ m.2 = E.length := by
  intro fuel
  induction fuel with
  | zero => intro cursor m h; simp [findAllAux] at h
  | succ f ih =>
    intro cursor m h
    rw [findAllAux] at h
    cases hf : findFrom E T cursor with
    | none => rw [hf] at h; simp at h
    | some i =>
      rw [hf] at h
      obtain ⟨hsi, hmi⟩ := findFrom_some hf
      rcases List.mem_cons.mp h with h | h
      · subst h; exact ⟨hsi, hmi, rfl⟩
      · obtain ⟨h1, h2, h3⟩ := ih h
        exact ⟨by omega, h2, h3⟩

theorem findAllAux_pairwise {E T : List Nat} :
    ∀ (fuel cursor : Nat),
      (findAllAux E T cursor fuel).Pairwise (fun a b => a.1 + a.2 ≤ b.1) := by
  intro fuel
  induction fuel with
  | zero => intro cursor; simp [findAllAux]
  | succ f ih =>
    intro cursor
    rw [findAllAux]
    cases hf : findFrom E T cursor with
    | none => simp
    | some i =>
      rw [List.pairwise_cons]
      refine ⟨?_, ih (i + E.length)⟩
      intro b hb
      have := (findAllAux_mem hb).1
      simpa using this

theorem isWordChar_canon (c : Nat) : isWordChar (canon c) = isWordChar c := by
  unfold canon isWordChar
  split
  · rw [decide_eq_decide]
    omega
  · rfl

theorem matchesAt_window_get {E T : List Nat} {i k : Nat} (h : matchesAt E T i = true)
    (hk : k < E.length) :
    ∃ c e, T[i + k]? = some c ∧ E[k]? = some e ∧ canon c = canon e := by
  have hlen := matchesAt_bound h
  have hwin := matchesAt_window_eq h
  have h1 : (((T.drop i).take E.length).map canon)[k]? = ((E.map canon))[k]? := by
    rw [hwin]
  rw [List.getElem?_map, List.getElem?_map, List.getElem?_take_of_lt hk,
    List.getElem?_drop] at h1
  have hik : i + k < T.length := by omega
  rw [List.getElem?_eq_getElem hik, List.getElem?_eq_getElem hk] at h1
  simp only [Option.map_some'] at h1
  exact ⟨T[i + k], E[k], List.getElem?_eq_getElem hik, List.getElem?_eq_getElem hk,
    by injection h1⟩

theorem isWordAt_match_head {E T : List Nat} {i : Nat} (h : matchesAt E T i = true)
    (hw : startsWithWord E = true) : isWordAt T i = true := by
  cases E with
  | nil => simp [startsWithWord] at hw
  | cons e0 E2 =>
    have hk : 0 < (e0 :: E2).length := by simp
    obtain ⟨c, e, hc, he, hcan⟩ := matchesAt_window_get h hk
    have he0 : e = e0 := by
      simp only [List.getElem?_cons_zero] at he
      injection he with he2
      exact he2.symm
    have hwc : isWordChar c = true := by
      rw [← isWordChar_canon c, hcan, isWordChar_canon, he0]
      exact hw
    unfold isWordAt
    rw [show i + 0 = i from rfl] at hc
    rw [hc]
    exact hwc

theorem isWordAt_match_last {E T : List Nat} {i : Nat} (h : matchesAt E T i = true)
    (hw : endsWithWord E = true) : isWordAt T (i + E.length - 1) = true := by
  unfold endsWithWord at hw
  cases hE : E.getLast? with
  | none => rw [hE] at hw; simp at hw
  | some el =>
    rw [hE] at hw
    have hne : E ≠ [] := by
      intro h0
      subst h0
      simp at hE
    have hpos : 0 < E.length := List.length_pos.mpr hne
    have hk : E.length - 1 < E.length := by omega
    obtain ⟨c, e, hc, he, hcan⟩ := matchesAt_window_get h hk
    have hel : e = el := by
      rw [List.getLast?_eq_getElem?, he] at hE
      injection hE
    have hwc : isWordChar c = true := by
      rw [← isWordChar_canon c, hcan, isWordChar_canon, hel]
      exact hw
    unfold isWordAt
    have heq : i + E.length - 1 = i + (E.length - 1) := by omega
    rw [heq, hc]
    exact hwc

theorem matchesAt_start_clause {E T : List Nat} {i : Nat} (h : matchesAt E T i = true)
    (hw : startsWithWord E = true) : boundaryAt T i = true := by
  unfold matchesAt at h
  simp only [Bool.and_eq_true, Bool.or_eq_true, Bool.not_eq_true'] at h
  rcases h.1.2 with h2 | h2
  · rw [hw] at h2; exact absurd h2 (by simp)
  · exact h2

theorem matchesAt_end_clause {E T : List Nat} {i : Nat} (h : matchesAt E T i = true)
    (hw : endsWithWord E = true) : boundaryAt T (i + E.length) = true := by
  unfold matchesAt at h
  simp only [Bool.and_eq_true, Bool.or_eq_true, Bool.not_eq_true'] at h
  rcases h.2 with h2 | h2
  · rw [hw] at h2; exact absurd h2 (by simp)
  · exact h2

theorem matchesAt_boundary_start {E T : List Nat} {i : Nat} (h : matchesAt E T i = true)
    (hw : startsWithWord E = true) : i = 0 ∨ isWordAt T (i - 1) = false := by
  have hb := matchesAt_start_clause h hw
  have hw2 := isWordAt_match_head h hw
  unfold boundaryAt at hb
  rw [hw2] at hb
  by_cases h0 : i = 0
  · exact Or.inl h0
  · rw [if_neg h0] at hb
    cases hiw : isWordAt T (i - 1) with
    | false => exact Or.inr rfl
    | true => rw [hiw] at hb; simp at hb

theorem matchesAt_boundary_end {E T : List Nat} {i : Nat} (h : matchesAt E T i = true)
    (hw : endsWithWord E = true) : isWordAt T (i + E.length) = false := by
  have hb := matchesAt_end_clause h hw
  have hlast := isWordAt_match_last h hw
  have hne : E ≠ [] := by
    intro h0
    subst h0
    simp [endsWithWord] at hw
  have hpos : 0 < E.length := List.length_pos.mpr hne
  unfold boundaryAt at hb
  rw [if_neg (by omega : ¬ i + E.length = 0), hlast] at hb
  cases hiw : isWordAt T (i + E.length) with
  | false => rfl
  | true => rw [hiw] at hb; simp at hb

/-- C1: every occurrence extracted by the global pattern built by
`createExactMatchRegex` is non-overlapping with the others, has the
entity's length, matches the entity literally up to case canonicalisation,
and satisfies the boundary rule: when the entity starts with a word
character the character immediately before the match (if any) is not a
word character, and symmetrically after the match when the entity ends
with a word character. -/
theorem C1_matcher_boundary (E T : List Nat) :
    (findAll E T).Pairwise (fun a b => a.1 + a.2 ≤ b.1) ∧
    ∀ m ∈ findAll E T,
      m.2 = E.length ∧
      ((T.drop m.1).take E.length).map canon = E.map canon ∧
      (startsWithWord E = true → m.1 = 0 ∨ isWordAt T (m.1 - 1) = false) ∧
      (endsWithWord E = true → isWordAt T (m.1 + E.length) = false) := by
  constructor
  · exact findAllAux_pairwise (T.length + 1) 0
  · intro m hm
    obtain ⟨_, hmat, hlen⟩ := findAllAux_mem hm
    exact ⟨hlen, matchesAt_window_eq hmat,
      fun hw => matchesAt_boundary_start hmat hw,
      fun hw => matchesAt_boundary_end hmat hw⟩

theorem findAllAux_stable {E T : List Nat} (hE : E ≠ []) :
    ∀ (fuel1 fuel2 cursor : Nat), T.length + 1 ≤ cursor + fuel1 →
      T.length + 1 ≤ cursor + fuel2 →
      findAllAux E T cursor fuel1 = findAllAux E T cursor fuel2 := by
  have hpos : 0 < E.length := List.length_pos.mpr hE
  intro fuel1
  induction fuel1 with
  | zero =>
    intro fuel2 cursor h1 h2
    cases fuel2 with
    | zero => rfl
    | succ f2 =>
      rw [findAllAux, findAllAux, findFrom_none (by omega)]
  | succ f ih =>
    intro fuel2 cursor h1 h2
    cases fuel2 with
    | zero =>
      rw [findAllAux, findAllAux, findFrom_none (by omega)]
    | succ f2 =>
      rw [findAllAux, findAllAux]
      cases hf : findFrom E T cursor with
      | none => rfl
      | some i =>
        obtain ⟨hsi, hmi⟩ := findFrom_some hf
        have hbound := matchesAt_bound hmi
        have hrec := ih f2 (i + E.length) (by omega) (by omega)
        show (i, E.length) :: findAllAux E T (i + E.length) f =
          (i, E.length) :: findAllAux E T (i + E.length) f2
        rw [hrec]

/-- C10: for a non-empty entity the repeated-extraction loop of
`processDirectory` terminates: every `exec` result strictly advances the
scan position, and `T.length + 1` iterations always suffice — any larger
fuel computes the same occurrence list. -/
theorem C10_extraction_loop_terminates (E T : List Nat) (hE : E ≠ []) :
    (∀ s i, findFrom E T s = some i → s < i + E.length) ∧
    ∀ fuel, T.length + 1 ≤ fuel → findAllAux E T 0 fuel = findAll E T := by
  have hpos : 0 < E.length := List.length_pos.mpr hE
  constructor
  · intro s i hf
    have := (findFrom_some hf).1
    omega
  · intro fuel hfuel
    exact findAllAux_stable hE fuel (T.length + 1) 0 (by omega) (by omega)

theorem snippet_length_le (T : List Nat) (idx l : Nat) :
    (snippet T idx l).length ≤ l + 66 := by
  unfold snippet snipStart snipEnd ellipsis
  simp only [List.length_append, List.length_take, List.length_drop, List.length_cons,
    List.length_nil]
  omega

/-- C2: every Match Record emitted by the page scan carries a snippet of at
most `entity.length + 60` context characters plus the 6 literal ellipsis
characters. -/
theorem C2_snippet_bound (entities : List (List Nat)) (name : String)
    (handle t pn : Nat) (text : List Nat) :
    ∀ r ∈ pageRecords entities name handle t pn text,
      r.textSnippet.length ≤ r.entity.length + 60 + 6 := by
  intro r hr
  unfold pageRecords at hr
  simp only [List.mem_flatMap, List.mem_map] at hr
  obtain ⟨e, he, m, hm, rfl⟩ := hr
  show (snippet text m.1 e.length).length ≤ e.length + 60 + 6
  have := snippet_length_le text m.1 e.length
  omega

/-- C9: for a match at index 0 the left context is empty (the snippet is
the ellipsis followed directly by page text from position 0) yet the
snippet still begins with the literal ellipsis; and for any match inside
the page text the substring bounds stay within the string. -/
theorem C9_snippet_boundary (T : List Nat) (idx l : Nat) (h : idx + l ≤ T.length) :
    snippet T 0 l = ellipsis ++ T.take (snipEnd T 0 l) ++ ellipsis ∧
    snipStart 0 = 0 ∧
    (snippet T 0 l).take 3 = ellipsis ∧
    snipStart idx ≤ idx ∧ idx ≤ snipEnd T idx l ∧ snipEnd T idx l ≤ T.length := by
  refine ⟨?_, rfl, ?_, ?_, ?_, ?_⟩
  · unfold snippet snipStart
    rw [Nat.sub_zero, List.drop_zero]
  · unfold snippet ellipsis
    rfl
  · unfold snipStart; omega
  · unfold snipEnd; omega
  · unfold snipEnd; omega

/-- C6: after `clear` the grouped-count view is the empty mapping and the
per-entity index query returns the empty sequence for every entity. -/
theorem C6_clear_all (s : Store) (e : List Nat) :
    getMatchesGrouped (Store.clear s) = [] ∧
    getMatchesForEntity (Store.clear s) e = [] :=
  ⟨rfl, rfl⟩

theorem lookupKey_map_bump_ne {e a : List Nat} (h : a ≠ e)
    (acc : List (List Nat × Nat)) :
    lookupKey e (acc.map (fun p => if p.1 = a then (p.1, p.2 + 1) else p)) =
      lookupKey e acc := by
  induction acc with
  | nil => rfl
  | cons p r ih =>
    by_cases hpa : p.1 = a
    · have hpe : ¬ p.1 = e := by rw [hpa]; exact h
      simp only [List.map_cons, if_pos hpa, lookupKey]
      rw [if_neg hpe, if_neg hpe, ih]
    · simp only [List.map_cons, if_neg hpa, lookupKey]
      by_cases hpe : p.1 = e
      · rw [if_pos hpe, if_pos hpe]
      · rw [if_neg hpe, if_neg hpe, ih]

theorem lookupKey_map_bump_eq (a : List Nat) (acc : List (List Nat × Nat)) :
    lookupKey a (acc.map (fun p => if p.1 = a then (p.1, p.2 + 1) else p)) =
      (lookupKey a acc).map (fun v => v + 1) := by
  induction acc with
  | nil => rfl
  | cons p r ih =>
    by_cases hpa : p.1 = a
    · simp only [List.map_cons, if_pos hpa, lookupKey]
      rfl
    · simp only [List.map_cons, if_neg hpa, lookupKey]
      exact ih

theorem lookupKey_append_some {e : List Nat} {acc : List (List Nat × Nat)} {v : Nat}
    (h : lookupKey e acc = some v) (l2 : List (List Nat × Nat)) :
    lookupKey e (acc ++ l2) = some v := by
  induction acc with
  | nil => simp [lookupKey] at h
  | cons p r ih =>
    rw [List.cons_append]
    unfold lookupKey at h ⊢
    by_cases hpe : p.1 = e
    · rw [if_pos hpe] at h ⊢; exact h
    · rw [if_neg hpe] at h ⊢; exact ih h

theorem lookupKey_append_none {e : List Nat} {acc : List (List Nat × Nat)}
    (h : lookupKey e acc = none) (l2 : List (List Nat × Nat)) :
    lookupKey e (acc ++ l2) = lookupKey e l2 := by
  induction acc with
  | nil => rfl
  | cons p r ih =>
    rw [List.cons_append]
    show (if p.1 = e then some p.2 else lookupKey e (r ++ l2)) = lookupKey e l2
    unfold lookupKey at h
    by_cases hpe : p.1 = e
    · rw [if_pos hpe] at h; exact absurd h (by simp)
    · rw [if_neg hpe] at h
      rw [if_neg hpe]
      exact ih h

theorem lookupKey_bump_self (e : List Nat) (acc : List (List Nat × Nat)) :
    lookupKey e (bump acc e) = some ((lookupKey e acc).getD 0 + 1) := by
  unfold bump
  cases h : lookupKey e acc with
  | some v =>
    show lookupKey e (acc.map fun p => if p.1 = e then (p.1, p.2 + 1) else p) =
      some (v + 1)
    rw [lookupKey_map_bump_eq, h]
    rfl
  | none =>
    show lookupKey e (acc ++ [(e, 1)]) = some (0 + 1)
    rw [lookupKey_append_none h]
    show (if e = e then some 1 else lookupKey e []) = some (0 + 1)
    rw [if_pos rfl]

theorem lookupKey_bump_ne {e a : List Nat} (h : a ≠ e)
    (acc : List (List Nat × Nat)) :
    lookupKey e (bump acc a) = lookupKey e acc := by
  unfold bump
  cases hb : lookupKey a acc with
  | some v => exact lookupKey_map_bump_ne h acc
  | none =>
    cases he : lookupKey e acc with
    | some w => exact lookupKey_append_some he _
    | none =>
      rw [lookupKey_append_none he]
      show (if a = e then some 1 else lookupKey e []) = none
      rw [if_neg h]
      rfl

theorem lookupKey_foldl_bump (e : List Nat) :
    ∀ (l : List (List Nat)) (acc : List (List Nat × Nat)),
      lookupKey e (l.foldl bump acc) =
        match lookupKey e acc with
        | some m => some (m + countList e l)
        | none => if countList e l = 0 then none else some (countList e l) := by
  intro l
  induction l with
  | nil =>
    intro acc
    cases h : lookupKey e acc with
    | some m => simp [countList, h]
    | none => simp [countList, h]
  | cons a l ih =>
    intro acc
    rw [List.foldl_cons, ih (bump acc a)]
    by_cases hae : a = e
    · subst hae
      rw [lookupKey_bump_self]
      cases h : lookupKey a acc with
      | some m =>
        simp only [h, Option.getD_some, countList, eq_self_iff_true, if_true,
          Option.some.injEq]
        omega
      | none =>
        simp only [h, Option.getD_none, countList, eq_self_iff_true, if_true]
        rw [if_neg (by omega)]
    · rw [lookupKey_bump_ne hae]
      cases h : lookupKey e acc with
      | some m => simp [countList, h, hae]
      | none => simp [countList, h, hae]

theorem foldl_bump_map (rs : List (Nat × MatchRecord)) (acc : List (List Nat × Nat)) :
    rs.foldl (fun a r => bump a r.2.entity) acc =
      (rs.map (fun r => r.2.entity)).foldl bump acc := by
  induction rs generalizing acc with
  | nil => rfl
  | cons r rs ih => rw [List.foldl_cons, List.map_cons, List.foldl_cons, ih]

/-- The prototype-free idealization of the tally computes exactly the
multiset cardinality of `entity` values: an entity is a key exactly when
it occurs in some record, and its value is its number of records.  This
is the computation the spec ascribes to `groupedCounts`; the program's
actual plain-object semantics (`getMatchesGroupedJS`) agrees with it
only for entity names that do not collide with an `Object.prototype`
member. -/
theorem lookupKey_getMatchesGrouped (s : Store) (e : List Nat) :
    lookupKey e (getMatchesGrouped s) =
      if countEntity s e = 0 then none else some (countEntity s e) := by
  unfold getMatchesGrouped countEntity
  rw [foldl_bump_map, lookupKey_foldl_bump]
  rfl

/-- C3 (code bug): the claimed invariant — the grouped-count view equals
the multiset cardinality of `entity` values — fails in the program for
entity names colliding with `Object.prototype` members, because the
tally object is a plain `{}`.  With two records for `"__proto__"`
the cardinality is 2 but the returned object has no own key at all
(every assignment is swallowed by the inherited accessor), and with two
records for `"constructor"` the first read sees the inherited function,
so the stored value is a concatenation string rather than the number
2. -/
theorem C3_grouped_counts_prototype_bug :
    countEntity sProto (codes "__proto__") = 2 ∧
    (getMatchesGroupedJS sProto).own = [] ∧
    countEntity sCtor (codes "constructor") = 2 ∧
    isStrVal (jsGet (getMatchesGroupedJS sCtor) (codes "constructor")) = true ∧
    isNumVal (jsGet (getMatchesGroupedJS sCtor) (codes "constructor")) = false := by
  decide

/-- C4: a document that fails to decode contributes zero Match Records
(store and match counter are untouched; only the file counter and the
error log change), and the scan loop continues with the remaining
documents exactly as if it had started from that adjusted state. -/
theorem C4_decode_failure_isolated (entities : List (List Nat))
    (tx : Nat → Option String) (cancel : Nat → Bool) (t : Nat) (st : ScanState)
    (i : Nat) (e : String) (bad : Doc) (rest : List Doc)
    (hbad : bad.content = DocContent.failed e) (hc : cancel i = false) :
    (processDoc entities tx t st bad).store = st.store ∧
    (processDoc entities tx t st bad).matchCount = st.matchCount ∧
    runScanAux entities tx cancel t st i (bad :: rest) =
      runScanAux entities tx cancel t
        { st with fileCount := st.fileCount + 1,
                  errors := st.errors ++ [docError bad.name e] } (i + 1) rest := by
  have hpd : processDoc entities tx t st bad =
      { st with fileCount := st.fileCount + 1,
                errors := st.errors ++ [docError bad.name e] } := by
    unfold processDoc
    rw [hbad]
  refine ⟨by rw [hpd], by rw [hpd], ?_⟩
  rw [runScanAux, if_neg (by simp [hc]), hpd]

/-- C5: once the cancellation flag is set (it is monotone: `stopProcessing`
only ever sets it, and it is reset only when a new scan starts), the final
scan state is an integral fold of `processDoc` over a prefix of the
document list that stops before the flagged index: every processed
document ran to completion, no later document began, and the statistics
are those of exactly that prefix. -/
theorem C5_cancellation (entities : List (List Nat)) (tx : Nat → Option String)
    (cancel : Nat → Bool) (t k : Nat)
    (hmono : ∀ a b : Nat, a ≤ b → cancel a = true → cancel b = true)
    (hk : cancel k = true) :
    ∀ (ds : List Doc) (st : ScanState) (i : Nat),
      stopIndex cancel i ds ≤ k - i ∧
      runScanAux entities tx cancel t st i ds =
        (ds.take (stopIndex cancel i ds)).foldl (processDoc entities tx t) st := by
  intro ds
  induction ds with
  | nil => intro st i; exact ⟨by simp [stopIndex], rfl⟩
  | cons d rest ih =>
    intro st i
    by_cases hci : cancel i = true
    · have hsi : stopIndex cancel i (d :: rest) = 0 := by simp [stopIndex, hci]
      refine ⟨by omega, ?_⟩
      rw [runScanAux, if_pos hci, hsi]
      rfl
    · have hik : i < k := by
        by_contra hge
        exact hci (hmono k i (by omega) hk)
      obtain ⟨hn, hrun⟩ := ih (processDoc entities tx t st d) (i + 1)
      have hsi : stopIndex cancel i (d :: rest) =
          stopIndex cancel (i + 1) rest + 1 := by
        simp [stopIndex, hci]
      refine ⟨by omega, ?_⟩
      rw [runScanAux, if_neg hci, hrun, hsi, List.take_succ_cons, List.foldl_cons]

/-- C7: a rejecting store transaction is propagated, never swallowed: the
`addMatch` promise rejects with the transaction's error, and when this
happens inside a scan the rejection reaches the per-document handler of
`processDirectory`, which records it on the observability channel. -/
theorem C7_store_rejection (e : String) (s : Store) (m : MatchRecord) :
    dbAdd (some e) s m = Except.error e ∧
    ∀ (entities : List (List Nat)) (tx : Nat → Option String) (t : Nat)
      (st : ScanState) (d : Doc) (ps : List (List Nat)) (st2 : ScanState)
      (msg : String),
      d.content = DocContent.pages ps →
      processPages entities tx d.name d.handle t
        { st with fileCount := st.fileCount + 1 } 1 ps =
        Except.error (st2, msg) →
      docError d.name msg ∈ (processDoc entities tx t st d).errors := by
  refine ⟨rfl, ?_⟩
  intro entities tx t st d ps st2 msg hps hpp
  simp only [processDoc, hps]
  rw [hpp]
  simp

/-- C8 counterexample: at a concrete input where both the permission query
and the re-request are denied, `loadAndRenderMatch` does not render — but
it also surfaces no message at all, refuting the claim that an explicit
message is shown to the user in this case. -/
theorem C8_counterexample :
    deniedEnv.queryPerm ≠ PermState.granted ∧
    deniedEnv.requestPerm ≠ PermState.granted ∧
    loadAndRenderMatch deniedEnv = ⟨false, none⟩ := by
  refine ⟨by decide, by decide, by decide⟩

/-- C8 (amended): when the read-permission re-request is denied, the render
operation does not render the page onto the canvas — it returns silently,
surfacing no message (the explicit alert is shown only when the load
pipeline throws, e.g. for a moved or deleted file). -/
theorem C8_denied_no_render (env : RenderEnv)
    (hq : env.queryPerm ≠ PermState.granted)
    (hr : env.requestPerm ≠ PermState.granted) :
    loadAndRenderMatch env = ⟨false, none⟩ := by
  unfold loadAndRenderMatch
  rw [if_pos ⟨hq, hr⟩]

/-- Witness for C1 at the entity `"Cat"` and text `"The Catalog cat sat"`,
whose single occurrence is at index 12. -/
theorem C1_witness :
    ((12, 3) : Nat × Nat).2 = catE.length ∧
    ((catT.drop 12).take catE.length).map canon = catE.map canon ∧
    ((12 : Nat) = 0 ∨ isWordAt catT (12 - 1) = false) ∧
    isWordAt catT (12 + catE.length) = false :=
  have h := (C1_matcher_boundary catE catT).2 (12, 3) (by decide)
  ⟨h.1, h.2.1, h.2.2.1 (by decide), h.2.2.2 (by decide)⟩

/-- Witness for C2 at a one-character entity over a one-character page. -/
theorem C2_witness :
    (⟨[97], "a.pdf", 1, [46, 46, 46, 97, 46, 46, 46], 0, 0⟩ :
        MatchRecord).textSnippet.length ≤
      (⟨[97], "a.pdf", 1, [46, 46, 46, 97, 46, 46, 46], 0, 0⟩ :
        MatchRecord).entity.length + 60 + 6 :=
  C2_snippet_bound [[97]] "a.pdf" 0 0 1 [97]
    ⟨[97], "a.pdf", 1, [46, 46, 46, 97, 46, 46, 46], 0, 0⟩ (by decide)

/-- Witness for C4: a failing document followed by a good one. -/
theorem C4_witness :
    (processDoc [[97]] (fun _ => none) 0 st0 dBad).store = st0.store ∧
    (processDoc [[97]] (fun _ => none) 0 st0 dBad).matchCount = st0.matchCount ∧
    runScanAux [[97]] (fun _ => none) (fun _ => false) 0 st0 0 [dBad, d0] =
      runScanAux [[97]] (fun _ => none) (fun _ => false) 0
        { st0 with fileCount := st0.fileCount + 1,
                   errors := st0.errors ++ [docError dBad.name "broken"] } 1 [d0] :=
  C4_decode_failure_isolated [[97]] (fun _ => none) (fun _ => false) 0 st0 0 "broken"
    dBad [d0] rfl rfl

/-- Witness for C5: the flag turns on from document index 1 onwards. -/
theorem C5_witness :
    stopIndex (fun j => decide (1 ≤ j)) 0 [d0, dBad] ≤ 1 - 0 ∧
    runScanAux [[97]] (fun _ => none) (fun j => decide (1 ≤ j)) 0 st0 0 [d0, dBad] =
      ([d0, dBad].take (stopIndex (fun j => decide (1 ≤ j)) 0 [d0, dBad])).foldl
        (processDoc [[97]] (fun _ => none) 0) st0 :=
  C5_cancellation [[97]] (fun _ => none) (fun j => decide (1 ≤ j)) 0 1
    (fun a b hab ha => by
      simp only [decide_eq_true_eq] at ha ⊢
      omega)
    (by decide) [d0, dBad] st0 0

/-- Witness for C7: the first insert of a scan rejects with `"boom"`. -/
theorem C7_witness :
    dbAdd (some "boom") Store.empty
        ⟨[97], "a.pdf", 1, [46, 46, 46, 97, 46, 46, 46], 0, 0⟩ =
      Except.error "boom" ∧
    docError d0.name "boom" ∈
      (processDoc [[97]] (fun _ => some "boom") 0 st0 d0).errors :=
  ⟨(C7_store_rejection "boom" Store.empty
      ⟨[97], "a.pdf", 1, [46, 46, 46, 97, 46, 46, 46], 0, 0⟩).1,
   (C7_store_rejection "boom" Store.empty
      ⟨[97], "a.pdf", 1, [46, 46, 46, 97, 46, 46, 46], 0, 0⟩).2
     [[97]] (fun _ => some "boom") 0 st0 d0 [[97]] ⟨Store.empty, 1, 0, [], 1⟩ "boom"
     rfl rfl⟩

/-- Witness for the amended C8 at the concrete denied environment. -/
theorem C8_witness : loadAndRenderMatch deniedEnv = ⟨false, none⟩ :=
  C8_denied_no_render deniedEnv (by decide) (by decide)

/-- Witness for C9 at a two-character page with a match at index 1. -/
theorem C9_witness :
    snippet [97, 98] 0 1 =
      ellipsis ++ List.take (snipEnd [97, 98] 0 1) [97, 98] ++ ellipsis ∧
    snipStart 0 = 0 ∧
    (snippet [97, 98] 0 1).take 3 = ellipsis ∧
    snipStart 1 ≤ 1 ∧ 1 ≤ snipEnd [97, 98] 1 1 ∧ snipEnd [97, 98] 1 1 ≤
      ([97, 98] : List Nat).length :=
  C9_snippet_boundary [97, 98] 1 1 (by decide)

/-- Witness for C10: the entity `"a"` over the text `"a a"`, with fuel 10
in place of the canonical 4. -/
theorem C10_witness :
    (0 : Nat) < 0 + ([97] : List Nat).length ∧
    findAllAux [97] [97, 32, 97] 0 10 = findAll [97] [97, 32, 97] :=
  ⟨(C10_extraction_loop_terminates [97] [97, 32, 97] (by decide)).1 0 0 (by decide),
   (C10_extraction_loop_terminates [97] [97, 32, 97] (by decide)).2 10 (by decide)⟩
